import Mathlib

/-!
Verification of the constant-propagation rewrite engine
(`src/opt/constant-propagation/ConstantPropagationTransform.cpp`,
namespace `constant_propagation`, class `Transform`).

The engine walks each basic block of a method's CFG, replays the fixpoint
solver's transfer function, buffers instruction replacements and deletions,
eliminates dead conditional branches, and finally commits all buffered
edits.  We embed the engine shallowly: instructions are values, iterators
become positions `(block index, instruction index)`, pointer identity of a
buffered old instruction becomes the pair of its position and its value,
and the external collaborators (fixpoint iterator, whole-program summary)
become records of functions.
-/

namespace ConstProp

/-- Opcodes relevant to the transform (a representative subset of the Dex
opcode universe; the engine's `switch` only distinguishes the cases below,
everything else falls into `default`). -/
inductive Opcode where
  | OPCODE_MOVE
  | OPCODE_MOVE_WIDE
  | IOPCODE_MOVE_RESULT_PSEUDO
  | IOPCODE_MOVE_RESULT_PSEUDO_WIDE
  | IOPCODE_MOVE_RESULT_PSEUDO_OBJECT
  | OPCODE_MOVE_RESULT
  | OPCODE_MOVE_RESULT_WIDE
  | OPCODE_MOVE_RESULT_OBJECT
  | OPCODE_SPUT
  | OPCODE_SPUT_BOOLEAN
  | OPCODE_SPUT_BYTE
  | OPCODE_SPUT_CHAR
  | OPCODE_SPUT_OBJECT
  | OPCODE_SPUT_SHORT
  | OPCODE_SPUT_WIDE
  | OPCODE_ADD_INT_LIT16
  | OPCODE_ADD_INT_LIT8
  | OPCODE_CONST
  | OPCODE_CONST_WIDE
  | OPCODE_GOTO
  | OPCODE_IF_EQZ
  | OPCODE_IF_NEZ
  | OPCODE_IF_EQ
  | OPCODE_IF_NE
  | OPCODE_SGET
  | OPCODE_SGET_WIDE
  | OPCODE_SGET_OBJECT
  | OPCODE_AGET
  | OPCODE_AGET_WIDE
  | OPCODE_AGET_OBJECT
  | OPCODE_INVOKE_STATIC
  | OPCODE_NOP
  deriving DecidableEq, Repr

open Opcode

/-- Embeds `opcode::is_move_result_pseudo` (IR library). -/
def is_move_result_pseudo : Opcode → Bool
  | IOPCODE_MOVE_RESULT_PSEUDO => true
  | IOPCODE_MOVE_RESULT_PSEUDO_WIDE => true
  | IOPCODE_MOVE_RESULT_PSEUDO_OBJECT => true
  | _ => false

/-- Embeds `is_sget` (IR library): any static-field read variant. -/
def is_sget : Opcode → Bool
  | OPCODE_SGET => true
  | OPCODE_SGET_WIDE => true
  | OPCODE_SGET_OBJECT => true
  | _ => false

/-- Embeds `is_aget` (IR library): any array read variant. -/
def is_aget : Opcode → Bool
  | OPCODE_AGET => true
  | OPCODE_AGET_WIDE => true
  | OPCODE_AGET_OBJECT => true
  | _ => false

/-- Embeds `is_sput` (IR library): any static-field write variant (the
seven cases the engine's `switch` lists). -/
def is_sput : Opcode → Bool
  | OPCODE_SPUT => true
  | OPCODE_SPUT_BOOLEAN => true
  | OPCODE_SPUT_BYTE => true
  | OPCODE_SPUT_CHAR => true
  | OPCODE_SPUT_OBJECT => true
  | OPCODE_SPUT_SHORT => true
  | OPCODE_SPUT_WIDE => true
  | _ => false

/-- Embeds `is_conditional_branch` (IR library): the if-* opcodes. -/
def is_conditional_branch : Opcode → Bool
  | OPCODE_IF_EQZ => true
  | OPCODE_IF_NEZ => true
  | OPCODE_IF_EQ => true
  | OPCODE_IF_NE => true
  | _ => false

/-- Embeds `is_branch` (IR library): goto or a conditional branch. -/
def is_branch (op : Opcode) : Bool :=
  op == OPCODE_GOTO || is_conditional_branch op

/-- Embeds `IRInstruction`: opcode, destination register (possibly wide), literal
operand, and a static-field reference (a `Nat` stands for the field
handle).  Fields that a given opcode does not use are simply ignored. -/
structure IRInstruction where
  opcode : Opcode
  dest : Nat := 0
  dest_is_wide : Bool := false
  literal : Int := 0
  field : Nat := 0
  deriving DecidableEq, Repr

instance : Inhabited IRInstruction := ⟨{ opcode := OPCODE_NOP }⟩

/-- Edge kinds of the CFG (`cfg::EdgeType`): `EDGE_GOTO` is the
fallthrough edge, `EDGE_BRANCH` the conditionally-taken edge. -/
inductive EdgeType where
  | EDGE_GOTO
  | EDGE_BRANCH
  | EDGE_THROW
  deriving DecidableEq, Repr

/-- A CFG edge; only its kind matters to the engine (the fixpoint
iterator interprets the edge itself), so we keep the kind plus a target
block id. -/
structure Edge where
  type : EdgeType
  target : Nat := 0
  deriving DecidableEq, Repr

/-- Embeds `cfg::Block`: ordered instruction sequence plus outgoing edges. -/
structure Block where
  insns : List IRInstruction
  succs : List Edge
  deriving DecidableEq, Repr

/-- Embeds `ConstantEnvironment` (external collaborator): `is_bottom` marks an
unreachable point; `get_constant r` collapses
`env.get_primitive(r).constant_domain().get_constant()` into one lookup
returning the known constant of register `r`, if any. -/
structure ConstantEnvironment where
  is_bottom : Bool
  get_constant : Nat → Option Int

/-- Embeds `WholeProgramState` (external collaborator): `get_field_value f`
collapses `wps.get_field_value(resolve_field(f)).constant_domain()
.get_constant()` into one lookup returning the constant the summary
proves field `f` to hold, if any. -/
structure WholeProgramState where
  get_field_value : Nat → Option Int

/-- Embeds `intraprocedural::FixpointIterator` (external collaborator): entry
state per block id, the per-instruction transfer function, and the
edge-reachability query. -/
structure FixpointIterator where
  get_entry_state_at : Nat → ConstantEnvironment
  analyze_instruction : IRInstruction → ConstantEnvironment → ConstantEnvironment
  analyze_edge : Edge → ConstantEnvironment → ConstantEnvironment

/-- Embeds `Transform::Config`. -/
structure Config where
  replace_moves_with_consts : Bool
  deriving DecidableEq, Repr

/-- Embeds `Transform::Stats`. -/
structure Stats where
  materialized_consts : Nat := 0
  branches_removed : Nat := 0
  deriving DecidableEq, Repr

/-- A position in the method body: (block index, instruction index).
Plays the role of an `IRList::iterator` surviving until commit. -/
abbrev Pos := Nat × Nat

/-- One element of `m_replacements`: the old instruction (its position
and its value, together playing the role of the `IRInstruction*`
identity) and the freshly built replacement instruction. -/
structure Replacement where
  pos : Pos
  old_op : IRInstruction
  new_op : IRInstruction
  deriving DecidableEq, Repr

/-- The mutable state of a `Transform` object during one invocation:
the two edit buffers and the statistics counters. -/
structure TState where
  m_replacements : List Replacement := []
  m_deletes : List Pos := []
  m_stats : Stats := {}
  deriving DecidableEq, Repr

/-- Embeds `Transform::replace_with_const`: if the destination register's value
after `insn` is a known constant, buffer a replacement with a const load
(wide variant for wide destinations) and bump `materialized_consts`.
For a move-result-pseudo placeholder the recorded old instruction is
`std::prev(it)->insn`, the syntactically preceding instruction. -/
def replace_with_const (env : ConstantEnvironment) (b : Nat)
    (insns : List IRInstruction) (i : Nat) (st : TState) : TState :=
  let insn := insns.getD i default
  match env.get_constant insn.dest with
  | none => st
  | some cst =>
    let replacement : IRInstruction :=
      { opcode := if insn.dest_is_wide then OPCODE_CONST_WIDE else OPCODE_CONST,
        literal := cst,
        dest := insn.dest }
    if is_move_result_pseudo insn.opcode then
      { st with
        m_replacements := st.m_replacements ++
          [{ pos := (b, i - 1), old_op := insns.getD (i - 1) default,
             new_op := replacement }],
        m_stats.materialized_consts := st.m_stats.materialized_consts + 1 }
    else
      { st with
        m_replacements := st.m_replacements ++
          [{ pos := (b, i), old_op := insn, new_op := replacement }],
        m_stats.materialized_consts := st.m_stats.materialized_consts + 1 }

/-- Modelled from the spec: `ir_list::primary_instruction_of_move_result_pseudo`
(IR-library helper, not under `src/`) returns the real instruction
syntactically preceding the placeholder; the spec lists "no preceding
real instruction for a placeholder" among the silent no-ops, so the
model returns `none` in that case. -/
def primary_instruction_of_move_result_pseudo
    (insns : List IRInstruction) (i : Nat) : Option IRInstruction :=
  if i = 0 then none else insns.get? (i - 1)

/-- Embeds `Transform::simplify_instruction`: the rewrite-decision switch over
the instruction at position `(b, i)`. -/
def simplify_instruction (config : Config) (env : ConstantEnvironment)
    (wps : WholeProgramState) (b : Nat) (insns : List IRInstruction)
    (i : Nat) (st : TState) : TState :=
  let insn := insns.getD i default
  match insn.opcode with
  | OPCODE_MOVE | OPCODE_MOVE_WIDE =>
    if config.replace_moves_with_consts then
      replace_with_const env b insns i st
    else st
  | IOPCODE_MOVE_RESULT_PSEUDO
  | IOPCODE_MOVE_RESULT_PSEUDO_WIDE
  | IOPCODE_MOVE_RESULT_PSEUDO_OBJECT =>
    match primary_instruction_of_move_result_pseudo insns i with
    | some primary_insn =>
      if is_sget primary_insn.opcode || is_aget primary_insn.opcode then
        replace_with_const env b insns i st
      else st
    | none => st
  | OPCODE_SPUT | OPCODE_SPUT_BOOLEAN | OPCODE_SPUT_BYTE | OPCODE_SPUT_CHAR
  | OPCODE_SPUT_OBJECT | OPCODE_SPUT_SHORT | OPCODE_SPUT_WIDE =>
    match wps.get_field_value insn.field with
    | some _ => { st with m_deletes := st.m_deletes ++ [(b, i)] }
    | none => st
  | OPCODE_ADD_INT_LIT16 | OPCODE_ADD_INT_LIT8 =>
    replace_with_const env b insns i st
  | _ => st

/-- Modelled from the spec: `transform::find_last_instruction` (IR-library
helper, not under `src/`) locates a block's terminal instruction; "Blocks
with no terminal instruction ... are untouched", so for an empty block it
reports none, otherwise the index of the last instruction. -/
def find_last_instruction (block : Block) : Option Nat :=
  if block.insns.isEmpty then none else some (block.insns.length - 1)

/-- The `for (auto& edge : block->succs())` loop body of
`Transform::eliminate_dead_branch`: on the first edge whose post-edge
state is bottom, bump `branches_removed`, buffer a goto replacement when
that dead edge is the fallthrough (`EDGE_GOTO`) edge and a deletion
otherwise, and break. -/
def dead_branch_loop (intra_cp : FixpointIterator) (env : ConstantEnvironment)
    (branch_pos : Pos) (insn : IRInstruction) :
    List Edge → TState → TState
  | [], st => st
  | edge :: rest, st =>
    if (intra_cp.analyze_edge edge env).is_bottom then
      let is_fallthrough := edge.type == EdgeType.EDGE_GOTO
      let st := { st with m_stats.branches_removed := st.m_stats.branches_removed + 1 }
      if is_fallthrough then
        { st with m_replacements := st.m_replacements ++
            [{ pos := branch_pos, old_op := insn,
               new_op := { opcode := OPCODE_GOTO } }] }
      else
        { st with m_deletes := st.m_deletes ++ [branch_pos] }
    else
      dead_branch_loop intra_cp env branch_pos insn rest st

/-- Embeds `Transform::eliminate_dead_branch`: nothing happens for an empty
block or a non-branch terminal; a conditional-branch block must have
exactly two successor edges (`always_assert_log`, modelled as `none` =
fatal abort), then the successor edges are scanned for a bottom
post-edge state. -/
def eliminate_dead_branch (intra_cp : FixpointIterator)
    (env : ConstantEnvironment) (b : Nat) (block : Block) (st : TState) :
    Option TState :=
  match find_last_instruction block with
  | none => some st
  | some li =>
    let insn := block.insns.getD li default
    if ¬ is_conditional_branch insn.opcode then some st
    else if block.succs.length = 2 then
      some (dead_branch_loop intra_cp env (b, li) insn block.succs st)
    else none

/-- The commit operations of the IR/CFG collaborator that
`Transform::apply_changes` invokes, in invocation order. -/
inductive CommitOp where
  | replace_branch (old : Pos) (new_op : IRInstruction)
  | replace_opcode (old : Pos) (new_op : IRInstruction)
  | remove_opcode (pos : Pos)
  deriving DecidableEq, Repr

/-- Embeds `Transform::apply_changes`: first loop — every buffered replacement,
in buffer order, goes through the edge-aware `replace_branch` when the
old instruction is a branch and through the plain `replace_opcode`
otherwise; second loop — every buffered deletion commits by position in
recorded order.  The result is the trace of commit operations. -/
def apply_changes (st : TState) : List CommitOp :=
  (st.m_replacements.foldl (fun acc r =>
    acc ++ [if is_branch r.old_op.opcode then
              CommitOp.replace_branch r.pos r.new_op
            else
              CommitOp.replace_opcode r.pos r.new_op]) [])
  ++ (st.m_deletes.foldl (fun acc p => acc ++ [CommitOp.remove_opcode p]) [])

/-- The inner instruction loop of `Transform::apply`: fold each
instruction's effect into `env` (`analyze_instruction`), then run the
rewrite decision against the post-instruction environment.  `i` is the
index of the first instruction of `rest` within the block. -/
def apply_insns (config : Config) (intra_cp : FixpointIterator)
    (wps : WholeProgramState) (b : Nat) (insns : List IRInstruction) :
    Nat → List IRInstruction → ConstantEnvironment → TState →
    ConstantEnvironment × TState
  | _, [], env, st => (env, st)
  | i, insn :: rest, env, st =>
    let env := intra_cp.analyze_instruction insn env
    let st := simplify_instruction config env wps b insns i st
    apply_insns config intra_cp wps b insns (i + 1) rest env st

/-- The per-block body of `Transform::apply`: skip the block when its
entry state is bottom, otherwise replay its instructions and finish with
dead-branch elimination. -/
def apply_block (config : Config) (intra_cp : FixpointIterator)
    (wps : WholeProgramState) (b : Nat) (block : Block) (st : TState) :
    Option TState :=
  let env := intra_cp.get_entry_state_at b
  if env.is_bottom then some st
  else
    let (env, st) :=
      apply_insns config intra_cp wps b block.insns 0 block.insns env st
    eliminate_dead_branch intra_cp env b block st

/-- The block loop of `Transform::apply`, visiting blocks in stored
order; `b` is the index of the first block of the list. -/
def apply_blocks (config : Config) (intra_cp : FixpointIterator)
    (wps : WholeProgramState) : Nat → List Block → TState → Option TState
  | _, [], st => some st
  | b, block :: rest, st =>
    match apply_block config intra_cp wps b block st with
    | none => none
    | some st => apply_blocks config intra_cp wps (b + 1) rest st

/-- Embeds `Transform::apply`: run the analysis+decision traversal over all
blocks of the CFG starting from a fresh `Transform` state, then commit
(`apply_changes`).  Returns the commit trace together with the final
state (whose `m_stats` is the function's return value); `none` models a
fatal assertion failure. -/
def Transform.apply (config : Config) (intra_cp : FixpointIterator)
    (wps : WholeProgramState) (cfg : List Block) :
    Option (List CommitOp × TState) :=
  match apply_blocks config intra_cp wps 0 cfg {} with
  | none => none
  | some st => some (apply_changes st, st)

/-! Concrete fixtures used to instantiate the theorems below. -/

/-- A bottom (unreachable) environment. -/
def botEnv : ConstantEnvironment := ⟨true, fun _ => none⟩

/-- A reachable environment with no known constants. -/
def topEnv : ConstantEnvironment := ⟨false, fun _ => none⟩

/-- A conditional branch instruction. -/
def ifInsn : IRInstruction := { opcode := OPCODE_IF_EQZ }

/-- The conditionally-taken successor edge of `condBlock`. -/
def takenEdge : Edge := ⟨EdgeType.EDGE_BRANCH, 1⟩

/-- The fallthrough successor edge of `condBlock`. -/
def fallEdge : Edge := ⟨EdgeType.EDGE_GOTO, 2⟩

/-- A block terminated by a conditional branch, with its two successor
edges. -/
def condBlock : Block := { insns := [ifInsn], succs := [takenEdge, fallEdge] }

/-- A fixpoint iterator whose edge query reports every post-edge state
as bottom. -/
def bothBotFI : FixpointIterator :=
  ⟨fun _ => topEnv, fun _ e => e, fun _ _ => botEnv⟩

/-- A fixpoint iterator reporting only taken (`EDGE_BRANCH`) edges as
unreachable: the reachable arm is the fallthrough. -/
def takenBotFI : FixpointIterator :=
  ⟨fun _ => topEnv, fun _ e => e,
   fun e _ => if e.type == EdgeType.EDGE_BRANCH then botEnv else topEnv⟩

/-- A fixpoint iterator reporting only fallthrough (`EDGE_GOTO`) edges
as unreachable: the reachable arm is the taken edge. -/
def fallBotFI : FixpointIterator :=
  ⟨fun _ => topEnv, fun _ e => e,
   fun e _ => if e.type == EdgeType.EDGE_GOTO then botEnv else topEnv⟩

/-- A fixpoint iterator whose every block entry state is bottom. -/
def botEntryFI : FixpointIterator :=
  ⟨fun _ => botEnv, fun _ e => e, fun _ e => e⟩

/-- An `sput v0, F` instruction on field handle 5. -/
def sputInsn : IRInstruction := { opcode := OPCODE_SPUT, field := 5 }

/-- A whole-program summary proving field 5 == 7. -/
def wpsF7 : WholeProgramState := ⟨fun f => if f = 5 then some 7 else none⟩

/-- An environment proving register 0 == 8 (the value `sputInsn`
stores). -/
def envR0eq8 : ConstantEnvironment :=
  ⟨false, fun r => if r = 0 then some 8 else none⟩

/-- A static-field read of field 5. -/
def sgetInsn : IRInstruction := { opcode := OPCODE_SGET, field := 5 }

/-- The move-result-pseudo placeholder following `sgetInsn`, writing
register 3. -/
def pseudoInsn : IRInstruction := { opcode := IOPCODE_MOVE_RESULT_PSEUDO, dest := 3 }

/-- An environment proving register 3 == 42. -/
def envR3eq42 : ConstantEnvironment :=
  ⟨false, fun r => if r = 3 then some 42 else none⟩

/-- A plain register move into register 3. -/
def moveInsn : IRInstruction := { opcode := OPCODE_MOVE, dest := 3 }

/-- An 8-bit literal add writing register 3. -/
def addInsn : IRInstruction := { opcode := OPCODE_ADD_INT_LIT8, dest := 3 }

/-! Theorems. -/

/-- Helper: on a nonempty block whose terminal instruction is a
conditional branch and whose successor list is exactly `[e1, e2]`,
`eliminate_dead_branch` passes the assertion and runs the edge scan. -/
lemma edb_reduces (intra_cp : FixpointIterator) (env : ConstantEnvironment)
    (b : Nat) (block : Block) (st : TState) (e1 e2 : Edge)
    (hsuccs : block.succs = [e1, e2]) (hne : block.insns ≠ [])
    (hbr : is_conditional_branch
      ((block.insns.getD (block.insns.length - 1) default).opcode) = true) :
    eliminate_dead_branch intra_cp env b block st =
      some (dead_branch_loop intra_cp env (b, block.insns.length - 1)
        (block.insns.getD (block.insns.length - 1) default) [e1, e2] st) := by
  have hemp : block.insns.isEmpty = false := by
    cases h : block.insns.isEmpty
    · rfl
    · exact absurd (List.isEmpty_iff.mp h) hne
  have hbr2 : is_conditional_branch
      ((block.insns[block.insns.length - 1]?.getD default).opcode) = true := by
    simpa [List.getD_eq_getElem?_getD] using hbr
  simp [eliminate_dead_branch, find_last_instruction, hemp, hbr2, hsuccs]

/-- C1 (counterexample): with both successor edges' post-edge states
bottom, the engine still buffers an edit for the first bottom edge and
increments `branches_removed`, contradicting the claim that the
both-bottom case buffers nothing and leaves the counter unchanged. -/
theorem C1_counterexample :
    (bothBotFI.analyze_edge takenEdge topEnv).is_bottom = true ∧
    (bothBotFI.analyze_edge fallEdge topEnv).is_bottom = true ∧
    eliminate_dead_branch bothBotFI topEnv 0 condBlock {} =
      some { m_replacements := [], m_deletes := [(0, 0)],
             m_stats := { materialized_consts := 0, branches_removed := 1 } } :=
  ⟨rfl, rfl, rfl⟩

/-- C1 (amended): for a conditional-branch block with successor edges
`[e1, e2]`, dead-branch elimination buffers exactly one edit and
increments `branches_removed` by one iff at least one edge's post-edge
state is bottom (it stops at the first bottom edge found); when neither
is bottom the state is unchanged. -/
theorem C1_dead_branch_fires (intra_cp : FixpointIterator)
    (env : ConstantEnvironment) (b : Nat) (block : Block) (st : TState)
    (e1 e2 : Edge)
    (hsuccs : block.succs = [e1, e2]) (hne : block.insns ≠ [])
    (hbr : is_conditional_branch
      ((block.insns.getD (block.insns.length - 1) default).opcode) = true) :
    ∃ st2, eliminate_dead_branch intra_cp env b block st = some st2 ∧
      (((intra_cp.analyze_edge e1 env).is_bottom = false ∧
        (intra_cp.analyze_edge e2 env).is_bottom = false) → st2 = st) ∧
      (((intra_cp.analyze_edge e1 env).is_bottom = true ∨
        (intra_cp.analyze_edge e2 env).is_bottom = true) →
        st2.m_stats.branches_removed = st.m_stats.branches_removed + 1 ∧
        st2.m_replacements.length + st2.m_deletes.length =
          st.m_replacements.length + st.m_deletes.length + 1) := by
  rw [edb_reduces intra_cp env b block st e1 e2 hsuccs hne hbr]
  refine ⟨_, rfl, ?_, ?_⟩
  · rintro ⟨h1, h2⟩
    simp [dead_branch_loop, h1, h2]
  · intro h
    cases h1 : (intra_cp.analyze_edge e1 env).is_bottom
    · have h2 : (intra_cp.analyze_edge e2 env).is_bottom = true := by
        rcases h with h | h
        · rw [h1] at h; exact absurd h (by simp)
        · exact h
      by_cases ht : e2.type == EdgeType.EDGE_GOTO <;>
        simp [dead_branch_loop, h1, h2, ht] <;> omega
    · by_cases ht : e1.type == EdgeType.EDGE_GOTO <;>
        simp [dead_branch_loop, h1, ht] <;> omega

/-- C1 (witness): the amended theorem applied to a concrete block whose
taken edge alone is unreachable. -/
theorem C1_witness :
    ∃ st2, eliminate_dead_branch takenBotFI topEnv 0 condBlock {} = some st2 ∧
      (((takenBotFI.analyze_edge takenEdge topEnv).is_bottom = false ∧
        (takenBotFI.analyze_edge fallEdge topEnv).is_bottom = false) →
        st2 = {}) ∧
      (((takenBotFI.analyze_edge takenEdge topEnv).is_bottom = true ∨
        (takenBotFI.analyze_edge fallEdge topEnv).is_bottom = true) →
        st2.m_stats.branches_removed = ({} : TState).m_stats.branches_removed + 1 ∧
        st2.m_replacements.length + st2.m_deletes.length =
          ({} : TState).m_replacements.length + ({} : TState).m_deletes.length + 1) :=
  C1_dead_branch_fires takenBotFI topEnv 0 condBlock {} takenEdge fallEdge
    rfl (by decide) (by decide)

/-- C2 (counterexample): when exactly the taken edge is unreachable —
so the reachable arm is the fallthrough edge — the engine buffers a
deletion of the branch and no replacement, while the claim predicts a
replacement with an unconditional jump in this case. -/
theorem C2_counterexample :
    (takenBotFI.analyze_edge takenEdge topEnv).is_bottom = true ∧
    (takenBotFI.analyze_edge fallEdge topEnv).is_bottom = false ∧
    eliminate_dead_branch takenBotFI topEnv 0 condBlock {} =
      some { m_replacements := [], m_deletes := [(0, 0)],
             m_stats := { materialized_consts := 0, branches_removed := 1 } } :=
  ⟨rfl, rfl, rfl⟩

/-- C2 (amended): when the scan's first unreachable successor edge `ed`
is the fallthrough (`EDGE_GOTO`) edge — i.e. the reachable arm is the
taken edge — the engine buffers a replacement of the branch with an
unconditional `goto`; when `ed` is the taken edge — i.e. the reachable
arm is the fallthrough — it buffers a deletion of the branch. -/
theorem C2_replace_or_delete (intra_cp : FixpointIterator)
    (env : ConstantEnvironment) (b : Nat) (block : Block) (st : TState)
    (e1 e2 ed : Edge)
    (hsuccs : block.succs = [e1, e2]) (hne : block.insns ≠ [])
    (hbr : is_conditional_branch
      ((block.insns.getD (block.insns.length - 1) default).opcode) = true)
    (hdead : ((intra_cp.analyze_edge e1 env).is_bottom = true ∧ ed = e1) ∨
      ((intra_cp.analyze_edge e1 env).is_bottom = false ∧
       (intra_cp.analyze_edge e2 env).is_bottom = true ∧ ed = e2)) :
    eliminate_dead_branch intra_cp env b block st =
      some (if ed.type = EdgeType.EDGE_GOTO then
        { st with
          m_replacements := st.m_replacements ++
            [{ pos := (b, block.insns.length - 1),
               old_op := block.insns.getD (block.insns.length - 1) default,
               new_op := { opcode := OPCODE_GOTO } }],
          m_stats.branches_removed := st.m_stats.branches_removed + 1 }
      else
        { st with
          m_deletes := st.m_deletes ++ [(b, block.insns.length - 1)],
          m_stats.branches_removed := st.m_stats.branches_removed + 1 }) := by
  rw [edb_reduces intra_cp env b block st e1 e2 hsuccs hne hbr]
  rcases hdead with ⟨h1, hed⟩ | ⟨h1, h2, hed⟩
  · subst hed
    by_cases ht : ed.type = EdgeType.EDGE_GOTO <;>
      simp [dead_branch_loop, h1, ht]
  · subst hed
    by_cases ht : ed.type = EdgeType.EDGE_GOTO <;>
      simp [dead_branch_loop, h1, h2, ht]

/-- C2 (witness): the amended theorem applied to a concrete block whose
fallthrough edge alone is unreachable, yielding a goto replacement. -/
theorem C2_witness :
    eliminate_dead_branch fallBotFI topEnv 0 condBlock {} =
      some (if fallEdge.type = EdgeType.EDGE_GOTO then
        { ({} : TState) with
          m_replacements := ({} : TState).m_replacements ++
            [{ pos := (0, condBlock.insns.length - 1),
               old_op := condBlock.insns.getD (condBlock.insns.length - 1) default,
               new_op := { opcode := OPCODE_GOTO } }],
          m_stats.branches_removed := ({} : TState).m_stats.branches_removed + 1 }
      else
        { ({} : TState) with
          m_deletes := ({} : TState).m_deletes ++ [(0, condBlock.insns.length - 1)],
          m_stats.branches_removed := ({} : TState).m_stats.branches_removed + 1 }) :=
  C2_replace_or_delete fallBotFI topEnv 0 condBlock {} takenEdge fallEdge fallEdge
    rfl (by decide) (by decide) (Or.inr ⟨rfl, rfl, rfl⟩)

/-- C3 (counterexample): with the whole-program summary asserting field
5 == 7 and an `sput v0, 5` whose stored register provably holds 8, the
engine still buffers the deletion — the claim predicts this store is
left untouched, but the code never compares the stored value against
the summary constant. -/
theorem C3_counterexample :
    envR0eq8.get_constant sputInsn.dest = some 8 ∧
    wpsF7.get_field_value sputInsn.field = some 7 ∧
    simplify_instruction ⟨true⟩ envR0eq8 wpsF7 0 [sputInsn] 0 {} =
      { m_replacements := [], m_deletes := [(0, 0)], m_stats := {} } :=
  ⟨rfl, rfl, rfl⟩

/-- C3 (amended): for every static-field write (any sput variant), a
deletion is buffered if and only if the whole-program summary proves
the field holds some known constant — irrespective of the value being
stored; nothing else (replacements, statistics) changes. -/
theorem C3_sput_delete_iff_summary (config : Config)
    (env : ConstantEnvironment) (wps : WholeProgramState) (b : Nat)
    (insns : List IRInstruction) (i : Nat) (st : TState)
    (hsput : is_sput ((insns.getD i default).opcode) = true) :
    simplify_instruction config env wps b insns i st =
      (if (wps.get_field_value (insns.getD i default).field).isSome then
        { st with m_deletes := st.m_deletes ++ [(b, i)] }
      else st) := by
  cases hop : (insns.getD i default).opcode <;>
    first
      | (rw [hop] at hsput; exact absurd hsput (by decide))
      | (cases hf : wps.get_field_value (insns.getD i default).field <;>
          simp only [simplify_instruction, hop, hf] <;> simp)

/-- C3 (witness): the amended theorem applied to the concrete `sput`
scenario with summary field 5 == 7. -/
theorem C3_witness :
    simplify_instruction ⟨true⟩ envR0eq8 wpsF7 0 [sputInsn] 0 {} =
      (if (wpsF7.get_field_value (([sputInsn].getD 0 default)).field).isSome then
        { ({} : TState) with m_deletes := ({} : TState).m_deletes ++ [(0, 0)] }
      else {}) :=
  C3_sput_delete_iff_summary ⟨true⟩ envR0eq8 wpsF7 0 [sputInsn] 0 {} (by decide)

/-- C4 (confirmed): for a move-result-pseudo placeholder at position
`(b, i)` whose preceding real instruction is a static-field or array
read, with the placeholder's destination a known constant, the buffered
constant-materialization replacement records the preceding instruction
(position `(b, i - 1)` and its value), not the placeholder's own
position. -/
theorem C4_targets_primary (config : Config) (env : ConstantEnvironment)
    (wps : WholeProgramState) (b : Nat) (insns : List IRInstruction)
    (i : Nat) (st : TState) (prim : IRInstruction) (c : Int)
    (hi : i ≠ 0)
    (hp : is_move_result_pseudo ((insns.getD i default).opcode) = true)
    (hprim : insns.get? (i - 1) = some prim)
    (hsg : is_sget prim.opcode = true ∨ is_aget prim.opcode = true)
    (hc : env.get_constant (insns.getD i default).dest = some c) :
    (simplify_instruction config env wps b insns i st).m_replacements =
      st.m_replacements ++
        [{ pos := (b, i - 1), old_op := prim,
           new_op := { opcode := if (insns.getD i default).dest_is_wide then
                         OPCODE_CONST_WIDE else OPCODE_CONST,
                       literal := c,
                       dest := (insns.getD i default).dest } }] ∧
    ((b, i - 1) : Pos) ≠ (b, i) := by
  have hgetd : insns.getD (i - 1) default = prim := by
    rw [List.getD_eq_getElem?_getD, ← List.get?_eq_getElem?, hprim]
    rfl
  have hprim2 : primary_instruction_of_move_result_pseudo insns i = some prim := by
    rw [List.get?_eq_getElem?] at hprim
    simp [primary_instruction_of_move_result_pseudo, hi, hprim]
  have hrep : replace_with_const env b insns i st =
      { st with
        m_replacements := st.m_replacements ++
          [{ pos := (b, i - 1), old_op := prim,
             new_op := { opcode := if (insns.getD i default).dest_is_wide then
                           OPCODE_CONST_WIDE else OPCODE_CONST,
                         literal := c,
                         dest := (insns.getD i default).dest } }],
        m_stats.materialized_consts := st.m_stats.materialized_consts + 1 } := by
    simp only [replace_with_const, hc, hp, hgetd, if_true]
  refine ⟨?_, ?_⟩
  · cases hop : (insns.getD i default).opcode <;>
      first
        | (rw [hop] at hp; exact absurd hp (by decide))
        | (simp only [simplify_instruction, hop, hprim2, hsg, hrep]
           rcases hsg with hsg | hsg <;> simp [hsg])
  · intro hpair
    have : i - 1 = i := congrArg Prod.snd hpair
    omega

/-- C4 (witness): the theorem applied to the concrete pair `sget 5;
move-result-pseudo v3` with register 3 proven to hold 42. -/
theorem C4_witness :
    (simplify_instruction ⟨false⟩ envR3eq42 wpsF7 0 [sgetInsn, pseudoInsn] 1 {}).m_replacements =
      ({} : TState).m_replacements ++
        [{ pos := (0, 0), old_op := sgetInsn,
           new_op := { opcode := if (([sgetInsn, pseudoInsn].getD 1 default)).dest_is_wide then
                         OPCODE_CONST_WIDE else OPCODE_CONST,
                       literal := 42,
                       dest := (([sgetInsn, pseudoInsn].getD 1 default)).dest } }] ∧
    ((0, 0) : Pos) ≠ (0, 1) :=
  C4_targets_primary ⟨false⟩ envR3eq42 wpsF7 0 [sgetInsn, pseudoInsn] 1 {}
    sgetInsn 42 (by decide) (by decide) rfl (Or.inl (by decide)) rfl

/-- C5 (confirmed): a block whose entry environment is bottom is skipped
whole: the per-block body returns the engine state unchanged — no
replacement, no deletion, and both statistics counters untouched — and
does not abort. -/
theorem C5_bottom_entry_skipped (config : Config)
    (intra_cp : FixpointIterator) (wps : WholeProgramState) (b : Nat)
    (block : Block) (st : TState)
    (h : (intra_cp.get_entry_state_at b).is_bottom = true) :
    apply_block config intra_cp wps b block st = some st := by
  simp [apply_block, h]

/-- C5 (witness): the theorem applied to a concrete block under a
fixpoint iterator whose entry states are all bottom. -/
theorem C5_witness :
    apply_block ⟨true⟩ botEntryFI wpsF7 0 condBlock {} = some {} :=
  C5_bottom_entry_skipped ⟨true⟩ botEntryFI wpsF7 0 condBlock {} rfl

/-- C6 (confirmed): the `replace_moves_with_consts` flag gates only the
plain/wide register-move category: with the flag off a move is left
untouched and with it on the move goes through the constant-load
rewrite, while for every other opcode the decision is identical under
any two configurations. -/
theorem C6_flag_gates_only_moves (env : ConstantEnvironment)
    (wps : WholeProgramState) (b : Nat) (insns : List IRInstruction)
    (i : Nat) (st : TState) :
    (((insns.getD i default).opcode = OPCODE_MOVE ∨
      (insns.getD i default).opcode = OPCODE_MOVE_WIDE) →
      (simplify_instruction ⟨false⟩ env wps b insns i st = st ∧
       simplify_instruction ⟨true⟩ env wps b insns i st =
         replace_with_const env b insns i st)) ∧
    (((insns.getD i default).opcode ≠ OPCODE_MOVE ∧
      (insns.getD i default).opcode ≠ OPCODE_MOVE_WIDE) →
      ∀ c1 c2 : Config,
        simplify_instruction c1 env wps b insns i st =
          simplify_instruction c2 env wps b insns i st) := by
  constructor
  · rintro (hop | hop) <;>
      exact ⟨by simp only [simplify_instruction, hop]; rfl,
             by simp only [simplify_instruction, hop]; rfl⟩
  · rintro ⟨h1, h2⟩ c1 c2
    cases hop : (insns.getD i default).opcode <;>
      simp only [simplify_instruction, hop] <;>
      first
        | rfl
        | exact absurd hop (by assumption)

/-- C6 (witness): the theorem applied to a concrete move (both flag
values) and to a concrete literal add (flag-independence). -/
theorem C6_witness :
    (simplify_instruction ⟨false⟩ envR3eq42 wpsF7 0 [moveInsn] 0 {} = {} ∧
     simplify_instruction ⟨true⟩ envR3eq42 wpsF7 0 [moveInsn] 0 {} =
       replace_with_const envR3eq42 0 [moveInsn] 0 {}) ∧
    simplify_instruction ⟨true⟩ envR3eq42 wpsF7 0 [addInsn] 0 {} =
      simplify_instruction ⟨false⟩ envR3eq42 wpsF7 0 [addInsn] 0 {} :=
  ⟨(C6_flag_gates_only_moves envR3eq42 wpsF7 0 [moveInsn] 0 {}).1 (Or.inl rfl),
   (C6_flag_gates_only_moves envR3eq42 wpsF7 0 [addInsn] 0 {}).2
     ⟨by decide, by decide⟩ ⟨true⟩ ⟨false⟩⟩

/-- C7 (confirmed): when the terminal instruction of a block is a
conditional branch, `eliminate_dead_branch` fatally asserts (modelled
as `none`) exactly when the block does not have two successor edges;
under the precondition that the block has exactly two successor edges
the function always returns normally, so the assertion-failure branch
is unreachable. -/
theorem C7_two_succs_assertion (intra_cp : FixpointIterator)
    (env : ConstantEnvironment) (b : Nat) (block : Block) (st : TState) :
    (block.succs.length = 2 →
      (eliminate_dead_branch intra_cp env b block st).isSome = true) ∧
    (∀ li, find_last_instruction block = some li →
      is_conditional_branch ((block.insns.getD li default).opcode) = true →
      block.succs.length ≠ 2 →
      eliminate_dead_branch intra_cp env b block st = none) := by
  constructor
  · intro h2
    unfold eliminate_dead_branch
    cases hf : find_last_instruction block with
    | none => rfl
    | some li =>
      by_cases hb : is_conditional_branch ((block.insns.getD li default).opcode) = true <;>
        rw [List.getD_eq_getElem?_getD] at hb <;> simp [hb, h2]
  · intro li hf hb h2
    unfold eliminate_dead_branch
    rw [hf]
    rw [List.getD_eq_getElem?_getD] at hb
    simp [hb, h2]

/-- C7 (witness): the theorem applied to the concrete two-successor
conditional-branch block (normal return) and to the same block stripped
of one successor edge (fatal assertion). -/
theorem C7_witness :
    (eliminate_dead_branch bothBotFI topEnv 0 condBlock {}).isSome = true ∧
    eliminate_dead_branch bothBotFI topEnv 0
      { insns := [ifInsn], succs := [takenEdge] } {} = none :=
  ⟨(C7_two_succs_assertion bothBotFI topEnv 0 condBlock {}).1 (by decide),
   (C7_two_succs_assertion bothBotFI topEnv 0
      { insns := [ifInsn], succs := [takenEdge] } {}).2 0 rfl (by decide) (by decide)⟩

/-- C8 (confirmed): every legitimate no-edit situation is a silent
no-op that leaves buffers and statistics untouched and does not abort:
(1) no constant found for the destination; (2) a block with no terminal
instruction; (3) a non-branch terminal; (4) a block whose entry
environment is bottom; (5) a placeholder with no preceding real
instruction (at the start of the stream). -/
theorem C8_silent_noops :
    (∀ (env : ConstantEnvironment) (b : Nat) (insns : List IRInstruction)
       (i : Nat) (st : TState),
      env.get_constant ((insns.getD i default).dest) = none →
      replace_with_const env b insns i st = st) ∧
    (∀ (intra_cp : FixpointIterator) (env : ConstantEnvironment) (b : Nat)
       (block : Block) (st : TState),
      block.insns = [] →
      eliminate_dead_branch intra_cp env b block st = some st) ∧
    (∀ (intra_cp : FixpointIterator) (env : ConstantEnvironment) (b : Nat)
       (block : Block) (st : TState) (li : Nat),
      find_last_instruction block = some li →
      is_conditional_branch ((block.insns.getD li default).opcode) = false →
      eliminate_dead_branch intra_cp env b block st = some st) ∧
    (∀ (config : Config) (intra_cp : FixpointIterator)
       (wps : WholeProgramState) (b : Nat) (block : Block) (st : TState),
      (intra_cp.get_entry_state_at b).is_bottom = true →
      apply_block config intra_cp wps b block st = some st) ∧
    (∀ (config : Config) (env : ConstantEnvironment)
       (wps : WholeProgramState) (b : Nat) (insns : List IRInstruction)
       (st : TState),
      is_move_result_pseudo ((insns.getD 0 default).opcode) = true →
      simplify_instruction config env wps b insns 0 st = st) := by
  refine ⟨?_, ?_, ?_, ?_, ?_⟩
  · intro env b insns i st h
    simp only [replace_with_const, h]
  · intro intra_cp env b block st h
    simp [eliminate_dead_branch, find_last_instruction, h]
  · intro intra_cp env b block st li hf hb
    unfold eliminate_dead_branch
    rw [hf]
    rw [List.getD_eq_getElem?_getD] at hb
    simp [hb]
  · intro config intra_cp wps b block st h
    simp [apply_block, h]
  · intro config env wps b insns st hp
    cases hop : (insns.getD 0 default).opcode <;>
      first
        | (rw [hop] at hp; exact absurd hp (by decide))
        | (simp only [simplify_instruction, hop,
             primary_instruction_of_move_result_pseudo]
           simp)

/-- C8 (witness): each no-op clause applied at a concrete input: a move
with no known constant, an empty block, a goto-terminated block, a
bottom-entry block, and a placeholder at stream position 0. -/
theorem C8_witness :
    replace_with_const topEnv 0 [moveInsn] 0 {} = {} ∧
    eliminate_dead_branch bothBotFI topEnv 0 { insns := [], succs := [] } {} =
      some {} ∧
    eliminate_dead_branch bothBotFI topEnv 0
      { insns := [{ opcode := OPCODE_GOTO }], succs := [fallEdge] } {} =
      some {} ∧
    apply_block ⟨true⟩ botEntryFI wpsF7 0 condBlock {} = some {} ∧
    simplify_instruction ⟨true⟩ envR3eq42 wpsF7 0 [pseudoInsn] 0 {} = {} :=
  ⟨C8_silent_noops.1 topEnv 0 [moveInsn] 0 {} rfl,
   C8_silent_noops.2.1 bothBotFI topEnv 0 { insns := [], succs := [] } {} rfl,
   C8_silent_noops.2.2.1 bothBotFI topEnv 0
     { insns := [{ opcode := OPCODE_GOTO }], succs := [fallEdge] } {} 0 rfl rfl,
   C8_silent_noops.2.2.2.1 ⟨true⟩ botEntryFI wpsF7 0 condBlock {} rfl,
   C8_silent_noops.2.2.2.2 ⟨true⟩ envR3eq42 wpsF7 0 [pseudoInsn] {} rfl⟩

/-- C9 (confirmed): the engine is deterministic — two runs on equal
method IR, equal fixpoint-solver results, equal whole-program summary
and equal configuration produce equal commit traces, equal edit buffers
and equal statistics. -/
theorem C9_deterministic (c1 c2 : Config) (f1 f2 : FixpointIterator)
    (w1 w2 : WholeProgramState) (g1 g2 : List Block)
    (hc : c1 = c2) (hf : f1 = f2) (hw : w1 = w2) (hg : g1 = g2) :
    Transform.apply c1 f1 w1 g1 = Transform.apply c2 f2 w2 g2 := by
  subst hc; subst hf; subst hw; subst hg; rfl

/-- C9 (witness): two runs on a concrete one-block method. -/
theorem C9_witness :
    Transform.apply ⟨true⟩ takenBotFI wpsF7 [condBlock] =
      Transform.apply ⟨true⟩ takenBotFI wpsF7 [condBlock] :=
  C9_deterministic ⟨true⟩ ⟨true⟩ takenBotFI takenBotFI wpsF7 wpsF7
    [condBlock] [condBlock] rfl rfl rfl rfl

/-- Helper: folding a push-back accumulation over a list appends the
mapped list to the accumulator. -/
lemma foldl_push_eq_map {α β : Type} (f : α → β) :
    ∀ (l : List α) (init : List β),
      List.foldl (fun acc x => acc ++ [f x]) init l = init ++ l.map f := by
  intro l
  induction l with
  | nil => intro init; simp
  | cons x xs ih => intro init; simp [ih]

/-- C10 (confirmed): the commit trace consists of every buffered
replacement in buffer order — each one an edge-aware branch replacement
when the old instruction is a branch and a plain swap otherwise —
followed by every buffered deletion in recorded order. -/
theorem C10_commit_order (st : TState) :
    apply_changes st =
      st.m_replacements.map (fun r =>
        if is_branch r.old_op.opcode then CommitOp.replace_branch r.pos r.new_op
        else CommitOp.replace_opcode r.pos r.new_op)
      ++ st.m_deletes.map (fun p => CommitOp.remove_opcode p) := by
  unfold apply_changes
  rw [foldl_push_eq_map (fun r : Replacement =>
        if is_branch r.old_op.opcode then CommitOp.replace_branch r.pos r.new_op
        else CommitOp.replace_opcode r.pos r.new_op) st.m_replacements []]
  rw [foldl_push_eq_map (fun p : Pos => CommitOp.remove_opcode p) st.m_deletes []]
  simp

end ConstProp
